import Mathlib

/-!
Verification development for the trek migration engine.

The embedding models:
- `DateTimeUTC` / `MigrationVersion` (src/migration_version.rs): versions wrap a UTC
  date-time; the canonical serialized form is the RFC 3339 rendering at the UTC offset,
  and parsing is its inverse on that profile.
- `Db`: the database state visible to the engine: the dedicated marker table
  (`schema_version`) as an optional list of column names (absence of the table is
  `none`), plus an abstract list modelling the rest of the schema that migration
  bodies touch.
- `Migration` (src/migration.rs): the capability contract, with `display` standing for
  the Rust value's Display rendering (`to_string()`), and `up`/`down` as state
  transformers that may fail.
- `MigrationIndex` (src/migration_index.rs): the orchestrator, with `run`, `rollback`,
  `schema_version`, `outstanding_migrations`, `current_index` and
  `update_schema_version` translated statement by statement; the SQL the engine issues
  against the marker table (CREATE TABLE / ALTER TABLE RENAME COLUMN / DROP TABLE and
  the information_schema column query with its LIMIT 1) is given its standard
  PostgreSQL semantics on the `Db` state.

Fatal aborts (Rust panics, including `Option::unwrap` on `None`) are a distinguished
outcome constructor, separate from recoverable error values.
-/

namespace Trek

/-- A UTC date-time at second precision, modelling chrono DateTime with the UTC zone
as used by src/migration_version.rs. -/
structure DateTimeUTC where
  year : Nat
  month : Nat
  day : Nat
  hour : Nat
  minute : Nat
  second : Nat
deriving DecidableEq, Repr

/-- Leap-year test of the proleptic Gregorian calendar. -/
def isLeapYear (y : Nat) : Bool :=
  (y % 4 == 0 && y % 100 != 0) || (y % 400 == 0)

/-- Number of days in a month of the proleptic Gregorian calendar. -/
def daysInMonth (y m : Nat) : Nat :=
  if m == 2 then (if isLeapYear y then 29 else 28)
  else if m == 4 || m == 6 || m == 9 || m == 11 then 30
  else 31

/-- Calendar validity of a date-time: the conditions under which the value denotes an
actual chrono date-time renderable with a four-digit year. -/
def DateTimeUTC.valid (t : DateTimeUTC) : Bool :=
  decide (t.year < 10000) && decide (1 ≤ t.month) && decide (t.month ≤ 12) &&
    decide (1 ≤ t.day) && decide (t.day ≤ daysInMonth t.year t.month) &&
    decide (t.hour < 24) && decide (t.minute < 60) && decide (t.second < 60)

/-- The ASCII digit character for `d` (meaningful for `d < 10`). -/
def digitChar (d : Nat) : Char := Char.ofNat (48 + d)

/-- Two-digit zero-padded decimal rendering, as produced by chrono format codes. -/
def pad2 (n : Nat) : List Char := [digitChar (n / 10 % 10), digitChar (n % 10)]

/-- Four-digit zero-padded decimal rendering. -/
def pad4 (n : Nat) : List Char := pad2 (n / 100) ++ pad2 (n % 100)

/-- The RFC 3339 rendering of a UTC date-time, as produced by chrono to_rfc3339 on a
whole-second UTC value: YYYY-MM-DDTHH:MM:SS+00:00. -/
def rfc3339Chars (t : DateTimeUTC) : List Char :=
  pad4 t.year ++ '-' :: (pad2 t.month ++ '-' :: (pad2 t.day ++
    'T' :: (pad2 t.hour ++ ':' :: (pad2 t.minute ++ ':' :: (pad2 t.second ++
      ['+', '0', '0', ':', '0', '0'])))))

/-- Consume exactly two ASCII digits from the front of the character list. -/
def parse2 : List Char → Option (Nat × List Char)
  | c1 :: c2 :: rest =>
    if c1.isDigit && c2.isDigit then
      some ((c1.toNat - 48) * 10 + (c2.toNat - 48), rest)
    else none
  | _ => none

/-- Consume exactly four ASCII digits from the front of the character list. -/
def parse4 (cs : List Char) : Option (Nat × List Char) :=
  (parse2 cs).bind fun hi =>
  (parse2 hi.2).bind fun lo =>
  some (hi.1 * 100 + lo.1, lo.2)

/-- Consume one expected character. -/
def expectChar (c : Char) : List Char → Option (List Char)
  | d :: rest => if d == c then some rest else none
  | [] => none

/-- Final step of RFC 3339 parsing: accept the UTC offset tail and validate the
parsed calendar fields. -/
def finishRfc3339 (t : DateTimeUTC) : List Char → Option DateTimeUTC
  | ['Z'] => if t.valid then some t else none
  | ['+', '0', '0', ':', '0', '0'] => if t.valid then some t else none
  | _ => none

/-- RFC 3339 parsing on the UTC profile (the offsets `Z` and +00:00, the forms the
serializer emits), with calendar validation, modelling the chrono parse used by
from_rfc3339_string. -/
def parseRfc3339 (cs : List Char) : Option DateTimeUTC :=
  (parse4 cs).bind fun py =>
  (expectChar '-' py.2).bind fun cs2 =>
  (parse2 cs2).bind fun pmo =>
  (expectChar '-' pmo.2).bind fun cs4 =>
  (parse2 cs4).bind fun pd =>
  (expectChar 'T' pd.2).bind fun cs6 =>
  (parse2 cs6).bind fun ph =>
  (expectChar ':' ph.2).bind fun cs8 =>
  (parse2 cs8).bind fun pmi =>
  (expectChar ':' pmi.2).bind fun cs10 =>
  (parse2 cs10).bind fun ps =>
  finishRfc3339 ⟨py.1, pmo.1, pd.1, ph.1, pmi.1, ps.1⟩ ps.2

/-- src/migration_version.rs: MigrationVersion wraps a UTC date-time. -/
structure MigrationVersion where
  version : DateTimeUTC
deriving DecidableEq, Repr

/-- MigrationVersion::from_datetime. -/
def MigrationVersion.from_datetime (d : DateTimeUTC) : MigrationVersion := ⟨d⟩

/-- MigrationVersion::serialize: the RFC 3339 canonical string. -/
def MigrationVersion.serialize (v : MigrationVersion) : String :=
  String.mk (rfc3339Chars v.version)

/-- MigrationVersion::from_rfc3339_string: parse the canonical string, reporting the
parse failure as an error value. -/
def MigrationVersion.from_rfc3339_string (s : String) : Except String MigrationVersion :=
  match parseRfc3339 s.data with
  | some d => Except.ok ⟨d⟩
  | none => Except.error "ParseError"

/-- The database state visible to the engine: the columns of the dedicated marker
table (`schema_version`), with `none` when the table does not exist, and an abstract
list standing for the rest of the schema, which only migration bodies touch. -/
structure Db where
  schema_version_cols : Option (List String)
  tables : List String
deriving DecidableEq, Repr

/-- src/migration.rs: the Migration trait object. `display` is the value rendered by
the Display implementation (`to_string()`); `up` and `down` act on the database state
through the connection and may fail with a database error string. -/
structure Migration where
  display : String
  version : MigrationVersion
  up : Db → Except String Db
  down : Db → Except String Db

/-- src/error.rs: Error wraps a database-level cause with a higher-level message. -/
structure TrekError where
  message : String
  cause : String
deriving DecidableEq, Repr

/-- Outcome of a low-level database operation: success, a recoverable database error,
or a fatal abort (a Rust panic). -/
inductive DbOutcome (α : Type) where
  | ok : α → DbOutcome α
  | err : String → DbOutcome α
  | fatal : String → DbOutcome α
deriving DecidableEq, Repr

/-- Outcome of run/rollback: success or a wrapped error, each carrying the database
state the connection is left in, or a fatal abort. -/
inductive RunResult where
  | ok : Db → RunResult
  | err : TrekError → Db → RunResult
  | fatal : String → RunResult
deriving DecidableEq, Repr

/-- src/migration_index.rs: MigrationIndex owns the ordered migration list. -/
structure MigrationIndex where
  migrations : List Migration

/-- MigrationIndex::schema_version. The prepared query selects the column names of
the `schema_version` table from information_schema with LIMIT 1, so the row set is
the first element (if any) of the column list; zero rows mean no version, one row is
decoded as the version string, and the multiple-row arm panics. -/
def MigrationIndex.schema_version (db : Db) : DbOutcome (Option String) :=
  let rows := (match db.schema_version_cols with
    | none => ([] : List String)
    | some cols => cols).take 1
  match rows with
  | [] => DbOutcome.ok none
  | [c] => DbOutcome.ok (some c)
  | _ :: _ :: _ => DbOutcome.fatal
      "Failed to retrieve current database schema version. The query to get column name for version tracking table returned multiple rows."

/-- PostgreSQL semantics of ALTER TABLE schema_version RENAME COLUMN o TO n on a
column list: the old name must exist and the new name must not already exist. -/
def renameColumn (cols : List String) (o n : String) : Except String (List String) :=
  if o ∈ cols then
    if n ∈ cols then Except.error ("column " ++ n ++ " already exists")
    else Except.ok (cols.map (fun c => if c == o then n else c))
  else Except.error ("column " ++ o ++ " does not exist")

/-- MigrationIndex::update_schema_version, with the standard semantics of the three
SQL statements it issues: rename the marker column, create the marker table with the
single new column, or drop the marker table; both arguments None is a panic. -/
def MigrationIndex.update_schema_version (db : Db)
    (old_version new_version : Option String) : DbOutcome Db :=
  match old_version, new_version with
  | some o, some n =>
    match db.schema_version_cols with
    | none => DbOutcome.err "relation schema_version does not exist"
    | some cols =>
      match renameColumn cols o n with
      | Except.ok cols2 => DbOutcome.ok { db with schema_version_cols := some cols2 }
      | Except.error e => DbOutcome.err e
  | none, some n =>
    match db.schema_version_cols with
    | some _ => DbOutcome.err "relation schema_version already exists"
    | none => DbOutcome.ok { db with schema_version_cols := some [n] }
  | some _, none =>
    match db.schema_version_cols with
    | none => DbOutcome.err "relation schema_version does not exist"
    | some _ => DbOutcome.ok { db with schema_version_cols := none }
  | none, none => DbOutcome.fatal
      "Cant update schema version from None to None: at least one of old_version and new_version parameters must be Some"

/-- MigrationIndex::current_index: position of the first migration whose Display
string equals the current version string. -/
def MigrationIndex.current_index (idx : MigrationIndex) (current_version : String) :
    Option Nat :=
  idx.migrations.findIdx? (fun m => m.display == current_version)

/-- MigrationIndex::outstanding_migrations. -/
def MigrationIndex.outstanding_migrations (idx : MigrationIndex)
    (current_version : Option String) : List Migration :=
  match current_version with
  | some cv =>
    match idx.current_index cv with
    | some i => idx.migrations.drop (i + 1)
    | none => idx.migrations
  | none => idx.migrations

/-- The loop body of MigrationIndex::run: for each outstanding migration, first
persist the new marker, then run the body, threading the current version local
variable exactly as the source does. -/
def MigrationIndex.runLoop (pending : List Migration) (schema_version : Option String)
    (db : Db) : RunResult :=
  match pending with
  | [] => RunResult.ok db
  | m :: rest =>
    match MigrationIndex.update_schema_version db schema_version (some m.display) with
    | DbOutcome.err e => RunResult.err ⟨"Error updating schema version", e⟩ db
    | DbOutcome.fatal p => RunResult.fatal p
    | DbOutcome.ok db1 =>
      match m.up db1 with
      | Except.error e =>
        RunResult.err ⟨"Error applying migration " ++ m.display, e⟩ db1
      | Except.ok db2 => MigrationIndex.runLoop rest (some m.display) db2

/-- MigrationIndex::run. -/
def MigrationIndex.run (idx : MigrationIndex) (db : Db) : RunResult :=
  match MigrationIndex.schema_version db with
  | DbOutcome.err e => RunResult.err ⟨"Error reading current schema version", e⟩ db
  | DbOutcome.fatal p => RunResult.fatal p
  | DbOutcome.ok sv => MigrationIndex.runLoop (idx.outstanding_migrations sv) sv db

/-- MigrationIndex::rollback, translated arm by arm; the two `.unwrap()` calls and
the out-of-range list access are fatal aborts. -/
def MigrationIndex.rollback (idx : MigrationIndex) (db : Db) : RunResult :=
  match MigrationIndex.schema_version db with
  | DbOutcome.err e =>
    RunResult.err ⟨"Failed to get current database schema version", e⟩ db
  | DbOutcome.fatal p => RunResult.fatal p
  | DbOutcome.ok none => RunResult.ok db
  | DbOutcome.ok (some old_schema_version) =>
    match idx.current_index old_schema_version with
    | none => RunResult.fatal "called Option::unwrap on a None value"
    | some old_migration_index =>
      match idx.migrations.get? old_migration_index with
      | none => RunResult.fatal "called Option::unwrap on a None value"
      | some old_migration =>
        match old_migration_index with
        | 0 =>
          match MigrationIndex.update_schema_version db
              (some old_migration.display) none with
          | DbOutcome.err e => RunResult.err
              ⟨"Failed to update schema version table when rolling back migration "
                ++ old_migration.display, e⟩ db
          | DbOutcome.fatal p => RunResult.fatal p
          | DbOutcome.ok db1 =>
            match old_migration.down db1 with
            | Except.error e => RunResult.err
                ⟨"The down method of database migration " ++ old_migration.display
                  ++ " failed", e⟩ db1
            | Except.ok db2 => RunResult.ok db2
        | Nat.succ k =>
          match idx.migrations.get? k with
          | none => RunResult.fatal "called Option::unwrap on a None value"
          | some new_migration =>
            match MigrationIndex.update_schema_version db
                (some old_migration.display) (some new_migration.display) with
            | DbOutcome.err e => RunResult.err
                ⟨"Failed to update schema version table when rolling back migration "
                  ++ new_migration.display, e⟩ db
            | DbOutcome.fatal p => RunResult.fatal p
            | DbOutcome.ok db1 =>
              match old_migration.down db1 with
              | Except.error e => RunResult.err
                  ⟨"The down method of database migration " ++ old_migration.display
                    ++ " failed", e⟩ db1
              | Except.ok db2 => RunResult.ok db2

/-- The marker written by the engine for migration display string `s`: the marker
table holds exactly that one column. -/
def setMarker (db : Db) (s : String) : Db := { db with schema_version_cols := some [s] }

/-- The marker-table contents corresponding to a current-version value. -/
def optCols : Option String → Option (List String)
  | none => none
  | some s => some [s]

/-- The database marker table agrees with a current-version value: absent for none,
else the single column named by it. -/
def markerAgrees (db : Db) (sv : Option String) : Prop :=
  db.schema_version_cols = optCols sv

/-- The marker invariant of claim C10: the marker table is absent or holds exactly
the identity string of some listed migration. -/
def goodMarker (ms : List Migration) (db : Db) : Prop :=
  db.schema_version_cols = none
  ∨ ∃ m ∈ ms, db.schema_version_cols = some [m.display]

/-- Migration body that records its effect in the abstract schema. -/
def upAdd (name : String) : Db → Except String Db :=
  fun d => Except.ok { d with tables := d.tables ++ [name] }

/-- Migration body that removes its recorded effect from the abstract schema. -/
def downRemove (name : String) : Db → Except String Db :=
  fun d => Except.ok { d with tables := d.tables.filter (fun t => t != name) }

/-- Migration body whose statement always fails. -/
def bodyFail : Db → Except String Db := fun _ => Except.error "syntax error"

/-- The success effect of the well-behaved bodies, as a total function. -/
def fEff : Migration → Db → Db :=
  fun m d => { d with tables := d.tables ++ [m.display] }

def tv1 : MigrationVersion := ⟨⟨1992, 6, 2, 15, 30, 0⟩⟩

def tv2 : MigrationVersion := ⟨⟨1993, 6, 2, 15, 30, 0⟩⟩

def tv3 : MigrationVersion := ⟨⟨1994, 6, 2, 15, 30, 0⟩⟩

/-- A well-behaved migration with identity string A. -/
def migA : Migration := ⟨"A", tv1, upAdd "A", downRemove "A"⟩

/-- A well-behaved migration with identity string B. -/
def migB : Migration := ⟨"B", tv2, upAdd "B", downRemove "B"⟩

/-- A migration whose apply always fails. -/
def migBadUp : Migration := ⟨"Bad", tv3, bodyFail, downRemove "Bad"⟩

/-- A migration whose revert always fails. -/
def migBadDown : Migration := ⟨"Bd", tv3, upAdd "Bd", bodyFail⟩

def idxA : MigrationIndex := ⟨[migA]⟩

def idxAB : MigrationIndex := ⟨[migA, migB]⟩

def idxABad : MigrationIndex := ⟨[migA, migBadUp]⟩

def idxABd : MigrationIndex := ⟨[migA, migBadDown]⟩

/-- An initially empty database: no marker table, no schema effects. -/
def db0 : Db := ⟨none, []⟩

/-! ### Helper lemmas about the engine -/

theorem schema_version_of_markerAgrees {db : Db} {sv : Option String}
    (h : markerAgrees db sv) : MigrationIndex.schema_version db = DbOutcome.ok sv := by
  cases sv with
  | none =>
    simp only [markerAgrees, optCols] at h
    simp [MigrationIndex.schema_version, h]
  | some s =>
    simp only [markerAgrees, optCols] at h
    simp [MigrationIndex.schema_version, h]

theorem update_schema_version_step {db : Db} {sv : Option String} {n : String}
    (h : markerAgrees db sv) (hne : ∀ o, sv = some o → o ≠ n) :
    MigrationIndex.update_schema_version db sv (some n) =
      DbOutcome.ok (setMarker db n) := by
  cases sv with
  | none =>
    simp only [markerAgrees, optCols] at h
    simp [MigrationIndex.update_schema_version, h, setMarker]
  | some o =>
    simp only [markerAgrees, optCols] at h
    have hon : o ≠ n := hne o rfl
    simp [MigrationIndex.update_schema_version, h, renameColumn, setMarker,
      Ne.symm hon, hon]

theorem update_schema_version_cases {db : Db} {sv : Option String} {n : String}
    (h : markerAgrees db sv) :
    MigrationIndex.update_schema_version db sv (some n) = DbOutcome.ok (setMarker db n)
    ∨ ∃ e, MigrationIndex.update_schema_version db sv (some n) = DbOutcome.err e := by
  cases sv with
  | none =>
    exact Or.inl (update_schema_version_step h (by intro o ho; cases ho))
  | some o =>
    by_cases hon : o = n
    · subst hon
      simp only [markerAgrees, optCols] at h
      refine Or.inr ⟨"column " ++ o ++ " already exists", ?_⟩
      simp [MigrationIndex.update_schema_version, h, renameColumn]
    · exact Or.inl (update_schema_version_step h (by intro x hx; cases hx; exact hon))

theorem markerAgrees_setMarker (db : Db) (s : String) :
    markerAgrees (setMarker db s) (some s) := rfl

theorem findIdx_zero_spec {α : Type} (p : α → Bool) :
    ∀ (l : List α) (j : Nat), l.findIdx? p = some j →
      (∃ m, l.get? j = some m ∧ p m = true)
      ∧ ∀ k, k < j → ∀ mk, l.get? k = some mk → p mk = false := by
  intro l
  induction l with
  | nil => intro j hj; simp [List.findIdx?_nil] at hj
  | cons x xs ih =>
    intro j hj
    rw [List.findIdx?_cons] at hj
    by_cases hx : p x = true
    · simp only [hx, if_true] at hj
      cases hj
      refine ⟨⟨x, rfl, hx⟩, ?_⟩
      intro k hk; omega
    · simp only [hx, if_false] at hj
      rw [List.findIdx?_succ] at hj
      match hfind : xs.findIdx? p with
      | none => rw [hfind] at hj; simp at hj
      | some j2 =>
        rw [hfind] at hj
        have hj2 : j = j2 + 1 := by
          simp only [Option.map_some'] at hj
          exact (Option.some.inj hj).symm
        subst hj2
        obtain ⟨⟨m, hm, hpm⟩, hmin⟩ := ih j2 hfind
        refine ⟨⟨m, ?_, hpm⟩, ?_⟩
        · simpa using hm
        · intro k hk mk hmk
          match k with
          | 0 =>
            simp at hmk
            subst hmk
            simpa using hx
          | Nat.succ k2 =>
            have : k2 < j2 := by omega
            exact hmin k2 this mk (by simpa using hmk)

theorem findIdx_some_of_exists {α : Type} (p : α → Bool) (l : List α)
    (h : ∃ x ∈ l, p x = true) : ∃ j, l.findIdx? p = some j := by
  match hfind : l.findIdx? p with
  | some j => exact ⟨j, rfl⟩
  | none =>
    obtain ⟨x, hx, hpx⟩ := h
    have := List.findIdx?_eq_none_iff.mp hfind x hx
    rw [this] at hpx
    cases hpx

theorem chain_ne_cons_of_not_mem {s : String} {l : List String}
    (hmem : ∀ x ∈ l, x ≠ s) (hl : List.Chain' (fun a b => a ≠ b) l) :
    List.Chain' (fun a b => a ≠ b) (s :: l) := by
  cases l with
  | nil => simp
  | cons x t =>
    rw [List.chain'_cons]
    exact ⟨Ne.symm (hmem x (List.mem_cons_self x t)), hl⟩

theorem runLoop_ok_of_up (f : Migration → Db → Db) :
    ∀ (pending : List Migration) (sv : Option String) (db : Db),
      markerAgrees db sv →
      List.Chain' (fun a b => a ≠ b)
        (sv.toList ++ pending.map (fun m => m.display)) →
      (∀ m ∈ pending, ∀ d, m.up d = Except.ok (f m d)) →
      (∀ m ∈ pending, ∀ d, (f m d).schema_version_cols = d.schema_version_cols) →
      MigrationIndex.runLoop pending sv db =
        RunResult.ok (pending.foldl (fun d m => f m (setMarker d m.display)) db) := by
  intro pending
  induction pending with
  | nil => intro sv db _ _ _ _; rfl
  | cons m rest ih =>
    intro sv db hagree hchain hup hpres
    have hne : ∀ o, sv = some o → o ≠ m.display := by
      intro o ho
      subst ho
      simp only [Option.toList_some, List.cons_append, List.map_cons,
        List.nil_append, List.singleton_append, List.chain'_cons] at hchain
      exact hchain.1
    have hupd := update_schema_version_step hagree hne
    have hchain2 : List.Chain' (fun a b => a ≠ b)
        ((some m.display).toList ++ rest.map (fun x => x.display)) := by
      cases sv with
      | none => simpa using hchain
      | some o =>
        simp only [Option.toList_some, List.cons_append, List.map_cons,
          List.nil_append, List.singleton_append, List.chain'_cons] at hchain
        simpa using hchain.2
    have hstep := hup m (List.mem_cons_self m rest) (setMarker db m.display)
    have hagree2 : markerAgrees (f m (setMarker db m.display)) (some m.display) := by
      unfold markerAgrees optCols
      rw [hpres m (List.mem_cons_self m rest) (setMarker db m.display)]
      rfl
    unfold MigrationIndex.runLoop
    rw [hupd]
    simp only [hstep]
    rw [ih (some m.display) (f m (setMarker db m.display)) hagree2 hchain2
      (fun x hx d => hup x (List.mem_cons_of_mem m hx) d)
      (fun x hx d => hpres x (List.mem_cons_of_mem m hx) d)]
    simp [List.foldl_cons]

theorem foldl_setMarker_cols (f : Migration → Db → Db) :
    ∀ (l : List Migration) (db : Db) (last : Migration),
      (∀ x ∈ l, ∀ d, (f x d).schema_version_cols = d.schema_version_cols) →
      l.getLast? = some last →
      (l.foldl (fun d m => f m (setMarker d m.display)) db).schema_version_cols
        = some [last.display] := by
  intro l
  induction l with
  | nil => intro db last _ h; cases h
  | cons a t ih =>
    intro db last hpres hlast
    cases t with
    | nil =>
      simp only [List.getLast?_singleton] at hlast
      cases hlast
      simp only [List.foldl_cons, List.foldl_nil]
      rw [hpres a (List.mem_cons_self a []) (setMarker db a.display)]
      rfl
    | cons b t2 =>
      rw [List.getLast?_cons_cons] at hlast
      simp only [List.foldl_cons]
      exact ih (f a (setMarker db a.display)) last
        (fun x hx d => hpres x (List.mem_cons_of_mem a hx) d) hlast

theorem runLoop_err_at (f : Migration → Db → Db) :
    ∀ (front : List Migration) (m : Migration) (post : List Migration)
      (sv : Option String) (db : Db),
      markerAgrees db sv →
      List.Chain' (fun a b => a ≠ b)
        (sv.toList ++ (front ++ m :: post).map (fun x => x.display)) →
      (∀ p ∈ front, ∀ d, p.up d = Except.ok (f p d)) →
      (∀ p ∈ front, ∀ d, (f p d).schema_version_cols = d.schema_version_cols) →
      (∀ d, ∃ e, m.up d = Except.error e) →
      ∃ e db1,
        MigrationIndex.runLoop (front ++ m :: post) sv db =
          RunResult.err ⟨"Error applying migration " ++ m.display, e⟩ db1
        ∧ db1.schema_version_cols = some [m.display] := by
  intro front
  induction front with
  | nil =>
    intro m post sv db hagree hchain hup hpres hfail
    have hne : ∀ o, sv = some o → o ≠ m.display := by
      intro o ho
      subst ho
      simp only [Option.toList_some, List.nil_append, List.cons_append,
        List.map_cons, List.chain'_cons] at hchain
      exact hchain.1
    have hupd := update_schema_version_step hagree hne
    obtain ⟨e, he⟩ := hfail (setMarker db m.display)
    refine ⟨e, setMarker db m.display, ?_, rfl⟩
    simp only [List.nil_append]
    unfold MigrationIndex.runLoop
    rw [hupd]
    simp only [he]
  | cons a front2 ih =>
    intro m post sv db hagree hchain hup hpres hfail
    have hne : ∀ o, sv = some o → o ≠ a.display := by
      intro o ho
      subst ho
      simp only [Option.toList_some, List.cons_append, List.map_cons,
        List.nil_append, List.chain'_cons] at hchain
      exact hchain.1
    have hupd := update_schema_version_step hagree hne
    have hstep := hup a (List.mem_cons_self a front2) (setMarker db a.display)
    have hagree2 : markerAgrees (f a (setMarker db a.display)) (some a.display) := by
      unfold markerAgrees optCols
      rw [hpres a (List.mem_cons_self a front2) (setMarker db a.display)]
      rfl
    have hchain2 : List.Chain' (fun x y => x ≠ y)
        ((some a.display).toList ++ (front2 ++ m :: post).map (fun x => x.display)) := by
      cases sv with
      | none => simpa using hchain
      | some o =>
        simp only [Option.toList_some, List.cons_append, List.map_cons,
          List.nil_append, List.chain'_cons] at hchain
        simpa using hchain.2
    obtain ⟨e, db1, hrun, hcols⟩ := ih m post (some a.display)
      (f a (setMarker db a.display)) hagree2 hchain2
      (fun x hx d => hup x (List.mem_cons_of_mem a hx) d)
      (fun x hx d => hpres x (List.mem_cons_of_mem a hx) d) hfail
    refine ⟨e, db1, ?_, hcols⟩
    simp only [List.cons_append]
    unfold MigrationIndex.runLoop
    rw [hupd]
    simp only [hstep]
    exact hrun

theorem runLoop_ok_marker :
    ∀ (pending : List Migration) (sv : Option String) (db db2 : Db),
      markerAgrees db sv →
      (∀ m ∈ pending, ∀ d d2, m.up d = Except.ok d2 →
        d2.schema_version_cols = d.schema_version_cols) →
      MigrationIndex.runLoop pending sv db = RunResult.ok db2 →
      (db2.schema_version_cols = db.schema_version_cols ∧ pending = [])
      ∨ ∃ m ∈ pending, db2.schema_version_cols = some [m.display] := by
  intro pending
  induction pending with
  | nil =>
    intro sv db db2 _ _ hrun
    unfold MigrationIndex.runLoop at hrun
    cases hrun
    exact Or.inl ⟨rfl, rfl⟩
  | cons m rest ih =>
    intro sv db db2 hagree hpres hrun
    unfold MigrationIndex.runLoop at hrun
    rcases update_schema_version_cases (n := m.display) hagree with hupd | ⟨e, hupd⟩
    · rw [hupd] at hrun
      simp only [] at hrun
      match hstep : m.up (setMarker db m.display) with
      | Except.error e2 =>
        rw [hstep] at hrun
        cases hrun
      | Except.ok db3 =>
        rw [hstep] at hrun
        have hcols3 : db3.schema_version_cols = some [m.display] := by
          rw [hpres m (List.mem_cons_self m rest) (setMarker db m.display) db3 hstep]
          rfl
        have hagree3 : markerAgrees db3 (some m.display) := hcols3
        rcases ih (some m.display) db3 db2 hagree3
          (fun x hx d d2 h => hpres x (List.mem_cons_of_mem m hx) d d2 h) hrun with
          ⟨hc, _⟩ | ⟨m2, hm2, hc⟩
        · exact Or.inr ⟨m, List.mem_cons_self m rest, by rw [hc]; exact hcols3⟩
        · exact Or.inr ⟨m2, List.mem_cons_of_mem m hm2, hc⟩
    · rw [hupd] at hrun
      cases hrun

theorem run_eq_runLoop {idx : MigrationIndex} {db : Db} {sv : Option String}
    (h : markerAgrees db sv) :
    idx.run db = MigrationIndex.runLoop (idx.outstanding_migrations sv) sv db := by
  unfold MigrationIndex.run
  rw [schema_version_of_markerAgrees h]

/-! ### Claim theorems -/

/-- C1: for a Registry over an ordered migration list and a database with no marker
table, run applies every migration body in list order (the final state is the left
fold of the per-migration step, marker write then body, over the list), returns
success, and the final marker is the single column written for the last migration. -/
theorem run_fresh_applies_in_order (idx : MigrationIndex) (f : Migration → Db → Db)
    (db : Db) (last : Migration)
    (hfresh : db.schema_version_cols = none)
    (hnodup : (idx.migrations.map (fun m => m.display)).Nodup)
    (hup : ∀ m ∈ idx.migrations, ∀ d, m.up d = Except.ok (f m d))
    (hpres : ∀ m ∈ idx.migrations, ∀ d,
      (f m d).schema_version_cols = d.schema_version_cols)
    (hlast : idx.migrations.getLast? = some last) :
    idx.run db =
      RunResult.ok (idx.migrations.foldl (fun d m => f m (setMarker d m.display)) db)
    ∧ (idx.migrations.foldl
        (fun d m => f m (setMarker d m.display)) db).schema_version_cols
        = some [last.display] := by
  have hagree : markerAgrees db none := hfresh
  have hchain : List.Chain' (fun a b => a ≠ b)
      ((none : Option String).toList ++ idx.migrations.map (fun m => m.display)) := by
    simpa using hnodup.chain'
  constructor
  · rw [run_eq_runLoop hagree]
    exact runLoop_ok_of_up f idx.migrations none db hagree hchain hup hpres
  · exact foldl_setMarker_cols f idx.migrations db last hpres hlast

/-- Witness for C1 at the concrete two-migration registry on the empty database. -/
theorem run_fresh_applies_in_order_witness :
    MigrationIndex.run idxAB db0 =
      RunResult.ok
        (idxAB.migrations.foldl (fun d m => fEff m (setMarker d m.display)) db0)
    ∧ (idxAB.migrations.foldl
        (fun d m => fEff m (setMarker d m.display)) db0).schema_version_cols
        = some [migB.display] :=
  run_fresh_applies_in_order idxAB fEff db0 migB rfl (by decide)
    (by
      intro m hm d
      rcases List.mem_cons.mp hm with rfl | hm2
      · rfl
      · rcases List.mem_singleton.mp hm2 with rfl
        rfl)
    (by
      intro m hm d
      rcases List.mem_cons.mp hm with rfl | hm2
      · rfl
      · rcases List.mem_singleton.mp hm2 with rfl
        rfl)
    rfl

/-- C2: if an outstanding migration body fails during run, run returns the error
wrapped with the message naming that migration, and the database is left with the
marker already naming the failing migration (the in-flight marker write is not
undone). -/
theorem run_apply_failure_keeps_inflight_marker (idx : MigrationIndex)
    (f : Migration → Db → Db) (db : Db) (sv : Option String)
    (front post : List Migration) (m : Migration)
    (hagree : markerAgrees db sv)
    (hout : idx.outstanding_migrations sv = front ++ m :: post)
    (hchain : List.Chain' (fun a b => a ≠ b)
      (sv.toList ++ (front ++ m :: post).map (fun x => x.display)))
    (hup : ∀ p ∈ front, ∀ d, p.up d = Except.ok (f p d))
    (hpres : ∀ p ∈ front, ∀ d, (f p d).schema_version_cols = d.schema_version_cols)
    (hfail : ∀ d, ∃ e, m.up d = Except.error e) :
    ∃ e db1,
      idx.run db = RunResult.err ⟨"Error applying migration " ++ m.display, e⟩ db1
      ∧ db1.schema_version_cols = some [m.display] := by
  obtain ⟨e, db1, hrun, hcols⟩ :=
    runLoop_err_at f front m post sv db hagree hchain hup hpres hfail
  refine ⟨e, db1, ?_, hcols⟩
  rw [run_eq_runLoop hagree, hout, hrun]

/-- Witness for C2: a registry whose second migration always fails, run on the empty
database. -/
theorem run_apply_failure_keeps_inflight_marker_witness :
    ∃ e db1,
      MigrationIndex.run idxABad db0 =
        RunResult.err ⟨"Error applying migration " ++ migBadUp.display, e⟩ db1
      ∧ db1.schema_version_cols = some [migBadUp.display] :=
  run_apply_failure_keeps_inflight_marker idxABad fEff db0 none [migA] [] migBadUp
    rfl rfl (by simp [migA, migBadUp])
    (by
      intro p hp d
      rcases List.mem_singleton.mp hp with rfl
      rfl)
    (by
      intro p hp d
      rcases List.mem_singleton.mp hp with rfl
      rfl)
    (fun d => ⟨"syntax error", rfl⟩)

/-- C3: the concrete two-migration scenario, plus the single-migration scenario:
run applies A then B and leaves marker B with both effects; the first rollback
leaves marker A with only A-s effect; the second rollback drops the marker table
and removes all effects; and on a single-migration registry, run then rollback
drops the marker table entirely and undoes the effect. -/
theorem two_migration_run_rollback_rollback :
    MigrationIndex.run idxAB db0 = RunResult.ok ⟨some ["B"], ["A", "B"]⟩
    ∧ MigrationIndex.rollback idxAB ⟨some ["B"], ["A", "B"]⟩ =
        RunResult.ok ⟨some ["A"], ["A"]⟩
    ∧ MigrationIndex.rollback idxAB ⟨some ["A"], ["A"]⟩ = RunResult.ok ⟨none, []⟩
    ∧ MigrationIndex.run idxA db0 = RunResult.ok ⟨some ["A"], ["A"]⟩
    ∧ MigrationIndex.rollback idxA ⟨some ["A"], ["A"]⟩ = RunResult.ok ⟨none, []⟩ :=
  ⟨rfl, rfl, rfl, rfl, rfl⟩

/-- C5 counterexample: the engine persists the migration Display string, not the
canonical version string. Running the single-migration registry on the empty
database leaves marker column A, which the read path returns undecoded, and A is
not the canonical serialization of that migration version. -/
theorem marker_not_canonical_version_cex :
    MigrationIndex.run idxA db0 = RunResult.ok ⟨some ["A"], ["A"]⟩
    ∧ MigrationIndex.schema_version ⟨some ["A"], ["A"]⟩ = DbOutcome.ok (some "A")
    ∧ "A" ≠ MigrationVersion.serialize migA.version :=
  ⟨rfl, rfl, by decide⟩

/-- C5 amended: each marker write during run names the column with the migration
Display string (to_string), and schema_version returns the column name as a raw
string without decoding it as a version. -/
theorem run_marker_is_display_string (m : Migration) (f : Db → Db) (db : Db)
    (hfresh : db.schema_version_cols = none)
    (hup : ∀ d, m.up d = Except.ok (f d))
    (hpres : ∀ d, (f d).schema_version_cols = d.schema_version_cols) :
    MigrationIndex.run ⟨[m]⟩ db = RunResult.ok (f (setMarker db m.display))
    ∧ (f (setMarker db m.display)).schema_version_cols = some [m.display]
    ∧ MigrationIndex.schema_version (f (setMarker db m.display))
        = DbOutcome.ok (some m.display) := by
  have hagree : markerAgrees db none := hfresh
  have hcols : (f (setMarker db m.display)).schema_version_cols = some [m.display] := by
    rw [hpres (setMarker db m.display)]
    rfl
  refine ⟨?_, hcols, schema_version_of_markerAgrees hcols⟩
  rw [run_eq_runLoop hagree]
  have hloop := runLoop_ok_of_up (fun _ d => f d) [m] none db hagree
    (by simp)
    (by
      intro x hx d
      rcases List.mem_singleton.mp hx with rfl
      exact hup d)
    (by
      intro x hx d
      rcases List.mem_singleton.mp hx with rfl
      exact hpres d)
  exact hloop

/-- Witness for the C5 amended theorem at the concrete single-migration registry. -/
theorem run_marker_is_display_string_witness :
    MigrationIndex.run ⟨[migA]⟩ db0 = RunResult.ok (fEff migA (setMarker db0 migA.display))
    ∧ (fEff migA (setMarker db0 migA.display)).schema_version_cols = some [migA.display]
    ∧ MigrationIndex.schema_version (fEff migA (setMarker db0 migA.display))
        = DbOutcome.ok (some migA.display) :=
  run_marker_is_display_string migA (fEff migA) db0 rfl (fun _ => rfl) (fun _ => rfl)

/-- C6: when the persisted marker holds a version string matching no migration in the
list, run treats the database as empty: the outstanding set is the whole list, every
migration is replayed from the beginning, and no error is raised. -/
theorem run_unknown_marker_replays_all (idx : MigrationIndex)
    (f : Migration → Db → Db) (db : Db) (s : String)
    (hcols : db.schema_version_cols = some [s])
    (hunknown : ∀ m ∈ idx.migrations, m.display ≠ s)
    (hnodup : (idx.migrations.map (fun m => m.display)).Nodup)
    (hup : ∀ m ∈ idx.migrations, ∀ d, m.up d = Except.ok (f m d))
    (hpres : ∀ m ∈ idx.migrations, ∀ d,
      (f m d).schema_version_cols = d.schema_version_cols) :
    idx.outstanding_migrations (some s) = idx.migrations
    ∧ idx.run db =
        RunResult.ok
          (idx.migrations.foldl (fun d m => f m (setMarker d m.display)) db) := by
  have hci : idx.current_index s = none := by
    unfold MigrationIndex.current_index
    rw [List.findIdx?_eq_none_iff]
    intro x hx
    simp [hunknown x hx]
  have hout : idx.outstanding_migrations (some s) = idx.migrations := by
    simp only [MigrationIndex.outstanding_migrations, hci]
  have hagree : markerAgrees db (some s) := hcols
  have hchain : List.Chain' (fun a b => a ≠ b)
      ((some s).toList ++ idx.migrations.map (fun m => m.display)) := by
    simp only [Option.toList_some, List.singleton_append]
    refine chain_ne_cons_of_not_mem ?_ hnodup.chain'
    intro x hx
    rcases List.mem_map.mp hx with ⟨m, hm, rfl⟩
    exact hunknown m hm
  refine ⟨hout, ?_⟩
  rw [run_eq_runLoop hagree, hout]
  exact runLoop_ok_of_up f idx.migrations (some s) db hagree hchain hup hpres

/-- Witness for C6: the two-migration registry run against a marker naming unknown
version X. -/
theorem run_unknown_marker_replays_all_witness :
    idxAB.outstanding_migrations (some "X") = idxAB.migrations
    ∧ MigrationIndex.run idxAB ⟨some ["X"], []⟩ =
        RunResult.ok
          (idxAB.migrations.foldl (fun d m => fEff m (setMarker d m.display))
            ⟨some ["X"], []⟩) :=
  run_unknown_marker_replays_all idxAB fEff ⟨some ["X"], []⟩ "X" rfl
    (by
      intro m hm
      rcases List.mem_cons.mp hm with rfl | hm2
      · decide
      · rcases List.mem_singleton.mp hm2 with rfl
        decide)
    (by decide)
    (by
      intro m hm d
      rcases List.mem_cons.mp hm with rfl | hm2
      · rfl
      · rcases List.mem_singleton.mp hm2 with rfl
        rfl)
    (by
      intro m hm d
      rcases List.mem_cons.mp hm with rfl | hm2
      · rfl
      · rcases List.mem_singleton.mp hm2 with rfl
        rfl)

/-- C7 (code-bug evidence): the read query carries LIMIT 1, so when the marker table
has two columns, schema_version returns the first column as the version instead of
hitting its multiple-rows panic arm: the fatal abort the claim describes is dead
code. -/
theorem schema_version_multi_column_returns_first :
    MigrationIndex.schema_version ⟨some ["a", "b"], []⟩ = DbOutcome.ok (some "a") :=
  rfl

theorem outstanding_subset (idx : MigrationIndex) (sv : Option String) :
    ∀ m ∈ idx.outstanding_migrations sv, m ∈ idx.migrations := by
  intro m hm
  cases sv with
  | none => exact hm
  | some cv =>
    simp only [MigrationIndex.outstanding_migrations] at hm
    cases hci : idx.current_index cv with
    | none => rw [hci] at hm; exact hm
    | some i => rw [hci] at hm; exact List.mem_of_mem_drop hm

theorem beq_display_eq {m : Migration} {s : String}
    (h : (m.display == s) = true) : m.display = s := by
  simpa using h

theorem rollback_reduce (idx : MigrationIndex) (db : Db) (s : String) (i : Nat)
    (old_m : Migration)
    (hcols : db.schema_version_cols = some [s])
    (hci : idx.current_index s = some i)
    (hget : idx.migrations.get? i = some old_m)
    (hdisp : old_m.display = s) :
    (i = 0 → idx.rollback db =
      (match old_m.down { db with schema_version_cols := none } with
       | Except.error e => RunResult.err
           ⟨"The down method of database migration " ++ old_m.display ++ " failed", e⟩
           { db with schema_version_cols := none }
       | Except.ok db2 => RunResult.ok db2))
    ∧ (∀ k, i = k + 1 → ∀ new_m, idx.migrations.get? k = some new_m →
        new_m.display ≠ s →
        idx.rollback db =
          (match old_m.down (setMarker db new_m.display) with
           | Except.error e => RunResult.err
               ⟨"The down method of database migration " ++ old_m.display ++ " failed",
                 e⟩ (setMarker db new_m.display)
           | Except.ok db2 => RunResult.ok db2)) := by
  have hagree : markerAgrees db (some s) := hcols
  constructor
  · intro h0
    subst h0
    have hupd : MigrationIndex.update_schema_version db (some old_m.display) none =
        DbOutcome.ok { db with schema_version_cols := none } := by
      simp [MigrationIndex.update_schema_version, hcols]
    unfold MigrationIndex.rollback
    rw [schema_version_of_markerAgrees hagree]
    simp only [hci, hget, hupd]
  · intro k hk new_m hnew hne
    subst hk
    have hupd : MigrationIndex.update_schema_version db (some old_m.display)
        (some new_m.display) = DbOutcome.ok (setMarker db new_m.display) := by
      rw [hdisp]
      exact update_schema_version_step hagree
        (by intro o ho; cases ho; exact fun hc => hne hc.symm)
    unfold MigrationIndex.rollback
    rw [schema_version_of_markerAgrees hagree]
    simp only [hci, hget, hnew, hupd]

/-- C4: during rollback the marker is moved to its target (previous migration when
one exists, otherwise removal of the marker table) before the revert body runs, so a
failing revert leaves an error result with the marker already holding the target. -/
theorem rollback_revert_failure_marker_already_moved (idx : MigrationIndex)
    (db : Db) (s : String) (i : Nat) (old_m : Migration)
    (hcols : db.schema_version_cols = some [s])
    (hci : idx.current_index s = some i)
    (hget : idx.migrations.get? i = some old_m)
    (hfail : ∀ d, ∃ e, old_m.down d = Except.error e) :
    ∃ e db1,
      idx.rollback db =
        RunResult.err ⟨"The down method of database migration " ++ old_m.display
          ++ " failed", e⟩ db1
      ∧ (i = 0 → db1.schema_version_cols = none)
      ∧ (∀ k, i = k + 1 → ∃ new_m, idx.migrations.get? k = some new_m
          ∧ db1.schema_version_cols = some [new_m.display])
      ∧ db1.tables = db.tables := by
  have hci2 : idx.migrations.findIdx? (fun m => m.display == s) = some i := hci
  obtain ⟨⟨m0, hm0, hpm0⟩, hmin⟩ :=
    findIdx_zero_spec (fun m => m.display == s) idx.migrations i hci2
  have hold : old_m = m0 := by
    rw [hget] at hm0
    exact Option.some.inj hm0
  subst hold
  have hdisp : old_m.display = s := beq_display_eq hpm0
  have hred := rollback_reduce idx db s i old_m hcols hci hget hdisp
  cases i with
  | zero =>
    obtain ⟨e, he⟩ := hfail { db with schema_version_cols := none }
    refine ⟨e, { db with schema_version_cols := none }, ?_, ?_, ?_, rfl⟩
    · rw [hred.1 rfl, he]
    · intro _; rfl
    · intro k hk; cases hk
  | succ k =>
    have hibound : k + 1 < idx.migrations.length := by
      have := List.get?_eq_some.mp hget
      exact this.1
    have hkbound : k < idx.migrations.length := by omega
    obtain ⟨new_m, hnew⟩ : ∃ x, idx.migrations.get? k = some x := by
      rw [List.get?_eq_get hkbound]
      exact ⟨_, rfl⟩
    have hne : new_m.display ≠ s := by
      have := hmin k (by omega) new_m hnew
      intro hc
      rw [hc] at this
      simp at this
    obtain ⟨e, he⟩ := hfail (setMarker db new_m.display)
    refine ⟨e, setMarker db new_m.display, ?_, ?_, ?_, rfl⟩
    · rw [hred.2 k rfl new_m hnew hne, he]
    · intro hc; cases hc
    · intro k2 hk2
      have hkk : k2 = k := by omega
      subst hkk
      exact ⟨new_m, hnew, rfl⟩

/-- Witness for C4: a registry whose second migration has a failing revert, rolled
back from its marker. -/
theorem rollback_revert_failure_marker_already_moved_witness :
    ∃ e db1,
      MigrationIndex.rollback idxABd ⟨some ["Bd"], ["A", "Bd"]⟩ =
        RunResult.err ⟨"The down method of database migration " ++ migBadDown.display
          ++ " failed", e⟩ db1
      ∧ (1 = 0 → db1.schema_version_cols = none)
      ∧ (∀ k, 1 = k + 1 → ∃ new_m, idxABd.migrations.get? k = some new_m
          ∧ db1.schema_version_cols = some [new_m.display])
      ∧ db1.tables = (⟨some ["Bd"], ["A", "Bd"]⟩ : Db).tables :=
  rollback_revert_failure_marker_already_moved idxABd ⟨some ["Bd"], ["A", "Bd"]⟩
    "Bd" 1 migBadDown rfl rfl rfl (fun _ => ⟨"syntax error", rfl⟩)

/-- C8: a persisted marker naming a version unknown to the Registry makes rollback
abort fatally (the unwrap panic), while an absent marker makes rollback return
success immediately with the database untouched. -/
theorem rollback_unknown_marker_fatal_none_noop (idx : MigrationIndex) :
    (∀ db s, db.schema_version_cols = some [s] →
      (∀ m ∈ idx.migrations, m.display ≠ s) →
      idx.rollback db = RunResult.fatal "called Option::unwrap on a None value")
    ∧ (∀ db, db.schema_version_cols = none → idx.rollback db = RunResult.ok db) := by
  constructor
  · intro db s hcols hunknown
    have hagree : markerAgrees db (some s) := hcols
    have hci : idx.current_index s = none := by
      unfold MigrationIndex.current_index
      rw [List.findIdx?_eq_none_iff]
      intro x hx
      simp [hunknown x hx]
    unfold MigrationIndex.rollback
    rw [schema_version_of_markerAgrees hagree]
    simp only [hci]
  · intro db hnone
    have hagree : markerAgrees db none := hnone
    unfold MigrationIndex.rollback
    rw [schema_version_of_markerAgrees hagree]

/-- Witness for C8: the unknown marker X aborts, the absent marker is a no-op. -/
theorem rollback_unknown_marker_fatal_none_noop_witness :
    MigrationIndex.rollback idxAB ⟨some ["X"], []⟩ =
      RunResult.fatal "called Option::unwrap on a None value"
    ∧ MigrationIndex.rollback idxAB db0 = RunResult.ok db0 :=
  ⟨(rollback_unknown_marker_fatal_none_noop idxAB).1 ⟨some ["X"], []⟩ "X" rfl
      (by
        intro m hm
        rcases List.mem_cons.mp hm with rfl | hm2
        · decide
        · rcases List.mem_singleton.mp hm2 with rfl
          decide),
    (rollback_unknown_marker_fatal_none_noop idxAB).2 db0 rfl⟩

/-- C10: when every migration body preserves the marker table, any successful run or
rollback started from a database whose marker is absent or names a listed migration
leaves the marker absent or naming a listed migration, and the fatal unknown-marker
abort inside rollback cannot fire from such a state. -/
theorem engine_preserves_known_marker (idx : MigrationIndex) (db : Db)
    (hpres : ∀ m ∈ idx.migrations,
      (∀ d d2, m.up d = Except.ok d2 →
        d2.schema_version_cols = d.schema_version_cols)
      ∧ (∀ d d2, m.down d = Except.ok d2 →
        d2.schema_version_cols = d.schema_version_cols))
    (hgood : goodMarker idx.migrations db) :
    (∀ db2, idx.run db = RunResult.ok db2 → goodMarker idx.migrations db2)
    ∧ (∀ db2, idx.rollback db = RunResult.ok db2 → goodMarker idx.migrations db2)
    ∧ ∀ msg, idx.rollback db ≠ RunResult.fatal msg := by
  have hrunpart : ∀ db2, idx.run db = RunResult.ok db2 →
      goodMarker idx.migrations db2 := by
    rcases hgood with hnone | ⟨m0, hm0, hcols⟩
    · intro db2 hok
      have hagree : markerAgrees db none := hnone
      rw [run_eq_runLoop hagree] at hok
      rcases runLoop_ok_marker (idx.outstanding_migrations none) none db db2 hagree
        (fun m hm d d2 h => (hpres m (outstanding_subset idx none m hm)).1 d d2 h)
        hok with ⟨hc, _⟩ | ⟨m, hm, hc⟩
      · left; rw [hc]; exact hnone
      · right; exact ⟨m, outstanding_subset idx none m hm, hc⟩
    · intro db2 hok
      have hagree : markerAgrees db (some m0.display) := hcols
      rw [run_eq_runLoop hagree] at hok
      rcases runLoop_ok_marker (idx.outstanding_migrations (some m0.display))
        (some m0.display) db db2 hagree
        (fun m hm d d2 h =>
          (hpres m (outstanding_subset idx (some m0.display) m hm)).1 d d2 h)
        hok with ⟨hc, _⟩ | ⟨m, hm, hc⟩
      · right; exact ⟨m0, hm0, by rw [hc]; exact hcols⟩
      · right; exact ⟨m, outstanding_subset idx (some m0.display) m hm, hc⟩
  have hrollpart : (∀ db2, idx.rollback db = RunResult.ok db2 →
        goodMarker idx.migrations db2)
      ∧ ∀ msg, idx.rollback db ≠ RunResult.fatal msg := by
    rcases hgood with hnone | ⟨m0, hm0, hcols⟩
    · have hrb : idx.rollback db = RunResult.ok db := by
        have hagree : markerAgrees db none := hnone
        unfold MigrationIndex.rollback
        rw [schema_version_of_markerAgrees hagree]
      constructor
      · intro db2 hok
        rw [hrb] at hok
        have hdb : db = db2 := RunResult.ok.inj hok
        subst hdb
        left
        exact hnone
      · intro msg hfat
        rw [hrb] at hfat
        exact RunResult.noConfusion hfat
    · obtain ⟨i, hci⟩ := findIdx_some_of_exists (fun m => m.display == m0.display)
        idx.migrations ⟨m0, hm0, by simp⟩
      obtain ⟨⟨mi, hmi, hpmi⟩, hmin⟩ :=
        findIdx_zero_spec (fun m => m.display == m0.display) idx.migrations i hci
      have hdisp : mi.display = m0.display := beq_display_eq hpmi
      have hci2 : idx.current_index m0.display = some i := hci
      have hred := rollback_reduce idx db m0.display i mi hcols hci2 hmi hdisp
      cases i with
      | zero =>
        have h0 := hred.1 rfl
        cases hdown : mi.down { db with schema_version_cols := none } with
        | error e =>
          rw [hdown] at h0
          constructor
          · intro db2 hok
            rw [h0] at hok
            exact RunResult.noConfusion hok
          · intro msg hfat
            rw [h0] at hfat
            exact RunResult.noConfusion hfat
        | ok db2x =>
          rw [hdown] at h0
          constructor
          · intro db2 hok
            rw [h0] at hok
            have hdb : db2x = db2 := RunResult.ok.inj hok
            subst hdb
            left
            rw [(hpres mi (List.get?_mem hmi)).2 _ _ hdown]
          · intro msg hfat
            rw [h0] at hfat
            exact RunResult.noConfusion hfat
      | succ k =>
        have hibound : k + 1 < idx.migrations.length :=
          (List.get?_eq_some.mp hmi).1
        have hkbound : k < idx.migrations.length := by omega
        obtain ⟨new_m, hnew⟩ : ∃ x, idx.migrations.get? k = some x := by
          rw [List.get?_eq_get hkbound]
          exact ⟨_, rfl⟩
        have hne : new_m.display ≠ m0.display := by
          have := hmin k (by omega) new_m hnew
          intro hc
          rw [hc] at this
          simp at this
        have h1 := hred.2 k rfl new_m hnew hne
        cases hdown : mi.down (setMarker db new_m.display) with
        | error e =>
          rw [hdown] at h1
          constructor
          · intro db2 hok
            rw [h1] at hok
            exact RunResult.noConfusion hok
          · intro msg hfat
            rw [h1] at hfat
            exact RunResult.noConfusion hfat
        | ok db2x =>
          rw [hdown] at h1
          constructor
          · intro db2 hok
            rw [h1] at hok
            have hdb : db2x = db2 := RunResult.ok.inj hok
            subst hdb
            right
            refine ⟨new_m, List.get?_mem hnew, ?_⟩
            rw [(hpres mi (List.get?_mem hmi)).2 _ _ hdown]
            rfl
          · intro msg hfat
            rw [h1] at hfat
            exact RunResult.noConfusion hfat
  exact ⟨hrunpart, hrollpart.1, hrollpart.2⟩

/-- Witness for C10: the preserved invariant instantiated at the two-migration
registry, from the post-run state with marker B. -/
theorem engine_preserves_known_marker_witness :
    goodMarker idxAB.migrations ⟨some ["A"], ["A"]⟩ :=
  (engine_preserves_known_marker idxAB ⟨some ["B"], ["A", "B"]⟩
    (by
      intro m hm
      rcases List.mem_cons.mp hm with rfl | hm2
      · constructor
        · intro d d2 h
          cases h
          rfl
        · intro d d2 h
          cases h
          rfl
      · rcases List.mem_singleton.mp hm2 with rfl
        constructor
        · intro d d2 h
          cases h
          rfl
        · intro d d2 h
          cases h
          rfl)
    (Or.inr ⟨migB, List.mem_cons_of_mem migA (List.mem_cons_self migB []), rfl⟩)).2.1 ⟨some ["A"], ["A"]⟩ rfl

/-! ### Round trip of the canonical version string -/

theorem digitChar_isDigit {d : Nat} (h : d < 10) : (digitChar d).isDigit = true := by
  interval_cases d <;> decide

theorem digitChar_toNat {d : Nat} (h : d < 10) : (digitChar d).toNat = 48 + d := by
  interval_cases d <;> decide

theorem parse2_pad2 {n : Nat} (h : n < 100) (rest : List Char) :
    parse2 (pad2 n ++ rest) = some (n, rest) := by
  have h1 : n / 10 % 10 = n / 10 := Nat.mod_eq_of_lt (by omega)
  have h2 : n / 10 < 10 := by omega
  have h3 : n % 10 < 10 := Nat.mod_lt _ (by omega)
  unfold pad2 parse2
  simp only [List.cons_append, List.nil_append, h1]
  rw [digitChar_isDigit h2, digitChar_isDigit h3, digitChar_toNat h2,
    digitChar_toNat h3]
  simp only [Bool.and_self, if_true]
  congr 1
  rw [Prod.mk.injEq]
  refine ⟨?_, rfl⟩
  omega

theorem parse4_pad4 {n : Nat} (h : n < 10000) (rest : List Char) :
    parse4 (pad4 n ++ rest) = some (n, rest) := by
  have h1 : n / 100 < 100 := by omega
  have h2 : n % 100 < 100 := Nat.mod_lt _ (by omega)
  unfold pad4 parse4
  rw [List.append_assoc, parse2_pad2 h1]
  simp only [Option.some_bind]
  rw [parse2_pad2 h2]
  simp only [Option.some_bind]
  congr 1
  rw [Prod.mk.injEq]
  refine ⟨?_, rfl⟩
  omega

theorem expectChar_cons_self (c : Char) (rest : List Char) :
    expectChar c (c :: rest) = some rest := by
  simp [expectChar]

set_option maxHeartbeats 1600000 in
theorem parseRfc3339_roundtrip (t : DateTimeUTC) (hv : t.valid = true) :
    parseRfc3339 (rfc3339Chars t) = some t := by
  obtain ⟨y, mo, d, h, mi, s⟩ := t
  simp only [DateTimeUTC.valid, Bool.and_eq_true, decide_eq_true_eq] at hv
  obtain ⟨⟨⟨⟨⟨⟨⟨hy, hmo1⟩, hmo2⟩, hd1⟩, hd2⟩, hh⟩, hmi⟩, hs⟩ := hv
  have hdm : daysInMonth y mo ≤ 31 := by
    unfold daysInMonth
    split
    · split <;> omega
    · split <;> omega
  have hmo100 : mo < 100 := by omega
  have hd100 : d < 100 := by omega
  have hh100 : h < 100 := by omega
  have hmi100 : mi < 100 := by omega
  have hs100 : s < 100 := by omega
  have hvalid : DateTimeUTC.valid ⟨y, mo, d, h, mi, s⟩ = true := by
    simp only [DateTimeUTC.valid, Bool.and_eq_true, decide_eq_true_eq]
    exact ⟨⟨⟨⟨⟨⟨⟨hy, hmo1⟩, hmo2⟩, hd1⟩, hd2⟩, hh⟩, hmi⟩, hs⟩
  simp only [rfc3339Chars, parseRfc3339, finishRfc3339, parse4_pad4 hy,
    parse2_pad2 hmo100, parse2_pad2 hd100, parse2_pad2 hh100, parse2_pad2 hmi100,
    parse2_pad2 hs100, expectChar_cons_self, Option.some_bind, hvalid, if_true]

/-- C9: for every timestamp (every calendar-valid date-time value), constructing a
version from it, serializing with the canonical string, and re-parsing succeeds and
yields the same version. -/
theorem version_canonical_string_roundtrip (t : DateTimeUTC) (hv : t.valid = true) :
    MigrationVersion.from_rfc3339_string
      (MigrationVersion.serialize (MigrationVersion.from_datetime t))
      = Except.ok (MigrationVersion.from_datetime t) := by
  unfold MigrationVersion.from_rfc3339_string MigrationVersion.serialize
    MigrationVersion.from_datetime
  have hdata : (String.mk (rfc3339Chars t)).data = rfc3339Chars t := rfl
  rw [hdata, parseRfc3339_roundtrip t hv]

/-- Witness for C9 at the timestamp 2015-08-26T00:13:50Z. -/
theorem version_canonical_string_roundtrip_witness :
    MigrationVersion.from_rfc3339_string
      (MigrationVersion.serialize (MigrationVersion.from_datetime
        ⟨2015, 8, 26, 0, 13, 50⟩))
      = Except.ok (MigrationVersion.from_datetime ⟨2015, 8, 26, 0, 13, 50⟩) :=
  version_canonical_string_roundtrip ⟨2015, 8, 26, 0, 13, 50⟩ (by decide)

end Trek
